import Mathlib

/-!
Verification of `scripts/translate_ru_to_uz.py`: an HTML RU→UZ translation
pipeline (extract translatable text, batch-translate with caching and
retries, reinsert, annotate locale links).  Each Python function named in a
claim is shallowly embedded as an executable Lean definition; theorems about
those definitions settle the claims.
-/

namespace TrUz

/-- Python `str.lower()` (ASCII case folding suffices for the tag names the
script compares); structural so concrete instances evaluate in the kernel. -/
def strLower (s : String) : String := String.mk (s.data.map Char.toLower)

/-- Python truthiness of `text.strip()`: the script only ever uses `.strip()`
to test that some non-whitespace character is present, so we embed that test
directly.  `isBlank s = true` iff `s.strip()` is falsy in Python. -/
def isBlank (s : String) : Bool := s.data.all Char.isWhitespace

/-- A parsed HTML document node, modelling the BeautifulSoup tree:
an element with a (lowercased-by-parse) tag name, attributes, children;
a text run (`NavigableString`); or a comment (`Comment`). -/
inductive Node where
  | element : String → List (String × String) → List Node → Node
  | text : String → Node
  | comment : String → Node
deriving Repr

/-- `EXCLUDED_TAGS` of the script (line 135). -/
def EXCLUDED_TAGS : List String := ["script", "style", "code", "pre", "noscript"]

/-- `TRANSLATE_ATTRS` of the script (line 136), fixed in one order
(the Python set's iteration order is unspecified; no claim depends on it). -/
def TRANSLATE_ATTRS : List String := ["title", "alt", "aria-label", "placeholder"]

/-- `META_DESC_SELECTORS` of the script (lines 137-140). -/
def META_DESC_SELECTORS : List (String × String) :=
  [("name", "description"), ("property", "og:description")]

/-- BeautifulSoup gives the root document object the name `[document]`,
which is never in `EXCLUDED_TAGS`. -/
def docRootName : String := "[document]"

/-- `extract_text_nodes` (lines 176-188) over a forest, carrying the name of
the immediate parent: walk descendants in document (pre)order, skip comments,
skip a string whose immediate parent's lowercased name is in `EXCLUDED_TAGS`,
keep strings that are non-empty after stripping.  Mirrors the source's check
of `element.parent` only (never deeper ancestors). -/
def extractF (parent : String) : List Node → List String
  | [] => []
  | Node.element name _ ch :: rest => extractF name ch ++ extractF parent rest
  | Node.text s :: rest =>
      (if EXCLUDED_TAGS.contains (strLower parent) then []
       else if isBlank s then [] else [s]) ++ extractF parent rest
  | Node.comment _ :: rest => extractF parent rest

/-- The texts of the nodes `extract_text_nodes(soup)` returns, in order. -/
def extract_text_nodes (doc : List Node) : List String :=
  extractF docRootName doc

/-- Every `NavigableString` of the document in document order, tagged with its
immediate parent's name and whether it is a comment — the raw stream
`extract_text_nodes` filters. -/
def allRunsF (parent : String) : List Node → List (String × String × Bool)
  | [] => []
  | Node.element name _ ch :: rest => allRunsF name ch ++ allRunsF parent rest
  | Node.text s :: rest => (parent, s, false) :: allRunsF parent rest
  | Node.comment s :: rest => (parent, s, true) :: allRunsF parent rest

/-- The filter the code's extraction applies to a raw run (parent name, text,
is-comment): not a comment, immediate parent not excluded, not blank. -/
def keepRun (r : String × String × Bool) : Bool :=
  !r.2.2 && !(EXCLUDED_TAGS.contains (strLower r.1)) && !(isBlank r.2.1)

/-- Extractor modelled from the claim's words: a text run is excluded if it
resolves under a script/style/code/pre/noscript ancestor AT ANY DEPTH.
`excluded` records whether any ancestor so far is an excluded tag. -/
def specExtractF (excluded : Bool) : List Node → List String
  | [] => []
  | Node.element name _ ch :: rest =>
      specExtractF (excluded || EXCLUDED_TAGS.contains (strLower name)) ch
        ++ specExtractF excluded rest
  | Node.text s :: rest =>
      (if excluded then [] else if isBlank s then [] else [s])
        ++ specExtractF excluded rest
  | Node.comment _ :: rest => specExtractF excluded rest

/-- Spec-side list of text-run units for a whole document (ancestors of the
root are not excluded). -/
def specExtractDoc (doc : List Node) : List String :=
  specExtractF false doc

/-- The translatable attribute values one element contributes
(`extract_attr_texts` body, lines 206-210): each whitelisted attribute that
is present with a non-blank value, in `TRANSLATE_ATTRS` order. -/
def attrValsOf (attrs : List (String × String)) : List String :=
  TRANSLATE_ATTRS.filterMap fun a =>
    match attrs.lookup a with
    | some v => if isBlank v then none else some v
    | none => none

/-- `extract_attr_texts` (lines 201-211): every element in document order
(`find_all(True)`), skipping an element whose own name is excluded — but
still descending into its children, as `find_all` does. -/
def attrF : List Node → List String
  | [] => []
  | Node.element name attrs ch :: rest =>
      (if EXCLUDED_TAGS.contains (strLower name) then [] else attrValsOf attrs)
        ++ attrF ch ++ attrF rest
  | _ :: rest => attrF rest

/-- One selector pass of `extract_meta_descriptions` (lines 191-198):
`find_all('meta', attrs={a: v})` in document order, keeping non-blank
`content` values. -/
def metaFindF (a v : String) : List Node → List String
  | [] => []
  | Node.element name attrs ch :: rest =>
      (if name == "meta" && attrs.lookup a == some v then
        match attrs.lookup "content" with
        | some c => if isBlank c then [] else [c]
        | none => []
      else []) ++ metaFindF a v ch ++ metaFindF a v rest
  | _ :: rest => metaFindF a v rest

/-- The contents `extract_meta_descriptions(soup)` collects: one recursive
pass per selector, selector passes concatenated in `META_DESC_SELECTORS`
order. -/
def metaVals (doc : List Node) : List String :=
  (META_DESC_SELECTORS.map fun p => metaFindF p.1 p.2 doc).flatten

/-- `apply_pre_glossary` (lines 156-165).  A rule is (source, target, mode);
`dt`/`exact` rules replace every occurrence via Python `str.replace`,
modelled by `String.replace` (identical for non-empty patterns); `regex`
rules call `re.sub` with `re.error` recovery, modelled by the oracle
`regexSub` since regular-expression matching is outside the embedding.
Rules are folded left to right over the text, as the Python loop rebinds
`text`. -/
def apply_pre_glossary (regexSub : String → String → String → String)
    (text : String) : List (String × String × String) → String
  | [] => text
  | (s, t, m) :: rest =>
      apply_pre_glossary regexSub
        (if m = "dt" ∨ m = "exact" then text.replace s t
         else if m = "regex" then regexSub s t text
         else text) rest

/-- Python `x or None` where `x : Optional[str]` came from the cache: an
absent entry stays absent, and a present but EMPTY string is falsy, so it
also collapses to `None` (line 321's `cache.get(t) or None`). -/
def pyOrNone (v : Option String) : Option String :=
  match v with
  | some s => if s = "" then none else some s
  | none => none

/-- The scan of `translate_unique` (lines 317-323) that decides what is sent
to the translation client: walk `texts` in order; a text already a key of
`mapping` (even with value `None`) is skipped; otherwise record
`cache.get(t) or None` under `t` and, when that is `None`, queue `t` in
`unique`.  Returns the final association list (insertion-ordered, modelling
the Python dict) and `unique` in queue order. -/
def buildUnique (cache : String → Option String) :
    List String → List (String × Option String) → List String →
      List (String × Option String) × List String
  | [], mapping, unique => (mapping, unique.reverse)
  | t :: rest, mapping, unique =>
      if (mapping.map Prod.fst).contains t then
        buildUnique cache rest mapping unique
      else
        let v := pyOrNone (cache t)
        buildUnique cache rest (mapping ++ [(t, v)])
          (if v.isNone then t :: unique else unique)

/-- The list `unique` that `translate_unique` passes to
`translator.translate` (line 325) — the texts sent over the network. -/
def sentTexts (cache : String → Option String) (texts : List String) : List String :=
  (buildUnique cache texts [] []).2

/-- The keys `translate_unique` looks up in the cache: one `cache.get(t)`
per new key added to `mapping` (line 321). -/
def cacheKeys (cache : String → Option String) (texts : List String) : List String :=
  ((buildUnique cache texts [] []).1).map Prod.fst

/-- `replace_texts` (lines 333-334): `[mapping.get(t, t) for t in node_texts]`
with `mapping : Dict[str, str]` modelled as a partial map. -/
def replace_texts (node_texts : List String) (mapping : String → Option String) :
    List String :=
  node_texts.map fun t => (mapping t).getD t

/-- The text content of the extracted units after `replace_in_html`
(lines 223-225): `zip(nodes, node_texts)` pairs each unit with its
replacement until either list runs out — units beyond the replacement list
keep their original text — and a `None` replacement becomes `''`.
Element `i` of the argument lists/result is the `i`-th extracted unit.
(The attribute and meta loops, lines 226-229, have the same shape.) -/
def replace_in_html_texts : List String → List (Option String) → List String
  | [], _ => []
  | o :: os, [] => o :: os
  | _ :: os, r :: rs => r.getD "" :: replace_in_html_texts os rs

/-! ## Translation client (`YandexTranslator.translate`, lines 88-128) -/

/-- What one `translate_batch` HTTP round produces, as the retry loop sees
it: a 429 (`RateLimitError`), another transport failure
(`requests.RequestException`), or success.  Which one occurs is given by an
oracle indexed by the global count of requests issued so far; on success the
service returns one translation per text (spec §6), modelled by a
translation function applied to the batch. -/
inductive Outcome where
  | ok : Outcome
  | rateLimit : Outcome
  | fail : Outcome

/-- The retry loop `for attempt in range(6)` (lines 113-127), with `n` the
number of attempts remaining (initially 6) and `k` the global request index.
Success extends the results with the batch's translations and breaks; a
rate-limit error sleeps and retries; another transport failure re-raises on
the last attempt (`attempt >= 5`, i.e. `n = 1`) and otherwise retries.  If
all attempts are rate-limited the `for` ends with no `break` and no raise:
the loop falls through with nothing appended — value `(none, k)`. -/
def retryLoop (f : String → String) (oracle : Nat → Outcome) (batch : List String) :
    Nat → Nat → Except Unit (Option (List String) × Nat)
  | k, 0 => .ok (none, k)
  | k, n + 1 =>
      match oracle k with
      | .ok => .ok (some (batch.map f), k + 1)
      | .rateLimit => retryLoop f oracle batch (k + 1) n
      | .fail =>
          if n = 0 then .error ()
          else retryLoop f oracle batch (k + 1) n

/-- Total character count of a batch (`batch_chars`). -/
def sumChars (l : List String) : Nat := (l.map String.length).sum

/-- The batch-building loop of `translate` (lines 93-103) carrying the
current `batch` (reversed accumulator) and `batch_chars`: take the next text
while the batch is below `batch_size`; break the batch when adding the text
would pass `max_chars` and the batch is non-empty (so an oversized text
alone still gets a batch).  Each emitted batch is `batch.reverse`.  After a
break the next batch restarts with the pending text, which the loop then
always accepts — faithful for `batch_size ≥ 1` (with `batch_size = 0` the
Python loop never advances `i` and diverges). -/
def buildBatchesAux (bsz mc : Nat) : List String → List String → Nat → List (List String)
  | [], batch, _ => [batch.reverse]
  | t :: rest, batch, chars =>
      if batch.length < bsz then
        if chars + t.length > mc ∧ batch ≠ [] then
          batch.reverse :: buildBatchesAux bsz mc rest [t] t.length
        else
          buildBatchesAux bsz mc rest (t :: batch) (chars + t.length)
      else
        batch.reverse :: buildBatchesAux bsz mc rest [t] t.length

/-- The partition of the input into request batches that `translate`
iterates over. -/
def buildBatches (bsz mc : Nat) : List String → List (List String)
  | [] => []
  | t :: rest => buildBatchesAux bsz mc rest [t] t.length

/-- The per-batch phase of `translate`: for each batch in order run the
retry loop; a raise aborts the whole call; otherwise `results.extend` the
batch's translations when the loop broke on success, nothing when it fell
through rate-limited. -/
def translateBatches (f : String → String) (oracle : Nat → Outcome) :
    List (List String) → Nat → Except Unit (List String)
  | [], _ => .ok []
  | b :: bl, k =>
      match retryLoop f oracle b k 6 with
      | .error e => .error e
      | .ok (res, k') =>
          match translateBatches f oracle bl k' with
          | .error e => .error e
          | .ok tail => .ok (res.getD [] ++ tail)

/-- `YandexTranslator.translate` (lines 88-128): partition into batches,
then request each batch in order with retries; the rate-limiter sleeps
(lines 104-111) only pace the requests and do not affect the value.
`f` is the service's translation of a single text, `oracle` the network
behaviour of each successive request. -/
def translate (bsz mc : Nat) (f : String → String) (oracle : Nat → Outcome)
    (texts : List String) : Except Unit (List String) :=
  translateBatches f oracle (buildBatches bsz mc texts) 0

/-! ## Locale annotator (lines 232-296, 348-431) -/

/-- `rel_path.count('/')` — the depth of a relative path. -/
def countSlashes (p : String) : Nat := p.data.count '/'

/-- Python `'../' * n`. -/
def repeatUp : Nat → String
  | 0 => ""
  | n + 1 => "../" ++ repeatUp n

/-- The href injected on an Uzbek page (lines 256-259 and 278-284):
`'../' * (depth + 1) + rel_path`. -/
def hrefUz (rel : String) : String :=
  repeatUp (countSlashes rel + 1) ++ rel

/-- The href injected on a Russian page (lines 262-266 and 288-292):
`('../' * depth if depth > 0 else '') + 'uz/' + rel_path`. -/
def hrefRu (rel : String) : String :=
  (if countSlashes rel > 0 then repeatUp (countSlashes rel) else "") ++ "uz/" ++ rel

/-- Character-list prefix test (for Python's substring `in`). -/
def isPrefixL : List Char → List Char → Bool
  | [], _ => true
  | _ :: _, [] => false
  | c :: cs, d :: ds => c == d && isPrefixL cs ds

/-- Character-list substring test. -/
def containsL (pat : List Char) : List Char → Bool
  | [] => isPrefixL pat []
  | c :: rest => isPrefixL pat (c :: rest) || containsL pat rest

/-- Python `pat in s` on strings. -/
def containsSub (s pat : String) : Bool := containsL pat.data s.data

/-- The style attribute `inject_language_switcher` sets on its container div
(line 275). -/
def switcherStyle : String :=
  "position:fixed;bottom:12px;right:12px;z-index:9999;font-family:inherit;font-size:13px;background:#fff;border:1px solid #ddd;border-radius:6px;padding:6px 10px;box-shadow:0 2px 8px rgba(0,0,0,0.08)"

/-- The `<link rel=alternate hreflang=… href=…>` node `set_lang_and_hreflang`
appends to head. -/
def altLinkNode (hl href : String) : Node :=
  Node.element "link" [("rel", "alternate"), ("hreflang", hl), ("href", href)] []

/-- The switcher `<div style=…><a href=… hreflang=…>label</a></div>` node
`inject_language_switcher` appends to body. -/
def switcherNode (hl href label : String) : Node :=
  Node.element "div" [("style", switcherStyle)]
    [Node.element "a" [("href", href), ("hreflang", hl)] [Node.text label]]

/-- The match `head.find('link', rel='alternate', hreflang=hl)` applies
(line 366). -/
def isAltLink (hl : String) : Node → Bool
  | Node.element name attrs _ =>
      name == "link" && attrs.lookup "rel" == some "alternate"
        && attrs.lookup "hreflang" == some hl
  | _ => false

/-- The match `body.find('div', style=lambda x: x and 'position:fixed' in x
and 'bottom:12px' in x)` applies (line 359). -/
def isSwitcherDiv : Node → Bool
  | Node.element name attrs _ =>
      name == "div" &&
        (match attrs.lookup "style" with
         | some s => containsSub s "position:fixed" && containsSub s "bottom:12px"
         | none => false)
  | _ => false

/-- How many nodes of a forest (all descendants, document order) satisfy
`p`. -/
def countNodes (p : Node → Bool) : List Node → Nat
  | [] => 0
  | Node.element nm a ch :: rest =>
      (if p (Node.element nm a ch) then 1 else 0) + countNodes p ch + countNodes p rest
  | n :: rest => (if p n then 1 else 0) + countNodes p rest

/-- `find(…)` + `decompose()`: remove the first node of the forest, in
document (pre)order and at any depth, that satisfies `p`; a forest with no
match is returned unchanged. -/
def removeFirst (p : Node → Bool) : List Node → List Node
  | [] => []
  | n :: rest =>
      if p n then rest
      else
        match n with
        | Node.element nm a ch =>
            if countNodes p ch > 0 then Node.element nm a (removeFirst p ch) :: rest
            else Node.element nm a ch :: removeFirst p rest
        | _ => n :: removeFirst p rest

/-- A parsed document as the annotator sees it: the `lang` attribute of the
`html` element, the child forest of `head`, and the child forest of `body`
when a `body` element exists — `none` when the `html` element has no body,
in which case `soup.find('body')` returns `None`.  Documents are modelled
with an `html` element present: when `html` is missing entirely, lines
238-248 synthesise it together with a body holding the whole document.  A
missing `head` is synthesised unconditionally by lines 251-254 before the
link is appended, and the guarded head lookup of lines 364-368 skips
removal when there is none, so a missing head behaves exactly like an empty
one and `head` is modelled as a (possibly empty) forest.  A missing `body`
is NEVER synthesised while `html` exists, so `body` stays optional. -/
structure SDoc where
  lang : Option String
  head : List Node
  body : Option (List Node)

/-- `set_lang_and_hreflang` (lines 232-267) on a normalised document:
set `lang` (an Uzbek page gets `uz`; a Russian page keeps a truthy existing
value, else `ru`) and append the alternate link to head — `hreflang='ru'`
with `hrefUz` on an Uzbek page, `hreflang='uz'` with `hrefRu` on a Russian
page. -/
def set_lang_and_hreflang (rel : String) (isUzPage : Bool) (d : SDoc) : SDoc :=
  if isUzPage then
    { d with lang := some "uz", head := d.head ++ [altLinkNode "ru" (hrefUz rel)] }
  else
    { d with
      lang := some (match d.lang with
        | some l => if l = "" then "ru" else l
        | none => "ru")
      head := d.head ++ [altLinkNode "uz" (hrefRu rel)] }

/-- `inject_language_switcher` (lines 270-296): when the document has no
body element, `soup.find('body')` is `None` and the function RETURNS WITHOUT
INJECTING (lines 271-273), modelled by `Option.map` leaving `none`
untouched; otherwise the switcher div is appended to body (`Русский`
linking back on an Uzbek page, `O\x27zbekcha` linking forward on a Russian
page). -/
def inject_language_switcher (rel : String) (isUzPage : Bool) (d : SDoc) : SDoc :=
  if isUzPage then
    { d with body := d.body.map (fun b => b ++ [switcherNode "ru" (hrefUz rel) "Русский"]) }
  else
    { d with body := d.body.map (fun b => b ++ [switcherNode "uz" (hrefRu rel) "O\x27zbekcha"]) }

/-- The annotation pass of `process_russian_html_file` (lines 356-372),
the Locale Annotator in the source-annotation role: remove the first
existing switcher div from body (skipped when `find('body')` is `None`,
lines 357-361) and the first existing `link rel=alternate hreflang=uz`
from head (skipped when there is no head, lines 364-368 — a no-op on the
empty forest), then set lang/hreflang and inject the switcher for the
Russian role. -/
def annotateRu (rel : String) (d : SDoc) : SDoc :=
  inject_language_switcher rel false <| set_lang_and_hreflang rel false <|
    { d with
      body := d.body.map (removeFirst isSwitcherDiv)
      head := removeFirst (isAltLink "uz") d.head }

/-- The annotation pass of `process_html_file` (lines 421-422), the Locale
Annotator in the translated-output role: set lang/hreflang and inject the
switcher for the Uzbek role.  No existing link or switcher is removed. -/
def annotateUz (rel : String) (d : SDoc) : SDoc :=
  inject_language_switcher rel true <| set_lang_and_hreflang rel true d

/-- Alternate-language links for `hl` anywhere under head. -/
def countAltLinks (hl : String) (d : SDoc) : Nat :=
  countNodes (isAltLink hl) d.head

/-- Language-switch controls anywhere under body (a document without a body
element holds none). -/
def countSwitchers (d : SDoc) : Nat :=
  countNodes isSwitcherDiv (d.body.getD [])

/-! ## Orchestrator text collection (lines 303-313 and 410-411) -/

/-- `collect_texts_for_translation` + line 411: the one list
`node_texts + attr_texts + meta_texts` whose members `translate_unique`
looks up in the cache, each list being the raw extracted texts with
`apply_pre_glossary` applied. -/
def all_texts (regexSub : String → String → String → String)
    (glossary : List (String × String × String)) (doc : List Node) : List String :=
  (extract_text_nodes doc).map (fun s => apply_pre_glossary regexSub s glossary)
    ++ (attrF doc).map (fun s => apply_pre_glossary regexSub s glossary)
    ++ (metaVals doc).map (fun s => apply_pre_glossary regexSub s glossary)

/-- The same document's extracted texts before any glossary processing. -/
def rawTexts (doc : List Node) : List String :=
  extract_text_nodes doc ++ attrF doc ++ metaVals doc

/-! ## Theorems -/

/-- The code's extractor is exactly the immediate-parent/non-blank/non-comment
filter of the raw run stream, in document order. -/
theorem extractF_eq_filter (parent : String) (l : List Node) :
    extractF parent l = ((allRunsF parent l).filter keepRun).map (fun r => r.2.1) := by
  induction parent, l using extractF.induct with
  | case1 parent => simp [extractF, allRunsF]
  | case2 parent name attrs ch rest ih1 ih2 =>
      simp [extractF, allRunsF, List.filter_append, ih1, ih2]
  | case3 parent s rest ih =>
      simp only [extractF, allRunsF, List.filter_cons, keepRun, ih]
      rcases Bool.eq_false_or_eq_true (EXCLUDED_TAGS.contains (strLower parent)) with h1 | h1 <;>
        rcases Bool.eq_false_or_eq_true (isBlank s) with h2 | h2 <;>
          simp at h1 <;> simp [h1, h2]
  | case4 parent s rest ih =>
      simp [extractF, allRunsF, List.filter_cons, keepRun, ih]

/-- C3, corrected.  The Document Extractor's list of text-run units is
exactly the document-ordered list of non-comment text runs that are
non-blank and whose IMMEDIATE parent element is not one of
script/style/code/pre/noscript; excluded ancestors deeper than the
immediate parent are not checked. -/
theorem extract_text_nodes_spec (doc : List Node) :
    extract_text_nodes doc
      = ((allRunsF docRootName doc).filter keepRun).map (fun r => r.2.1) :=
  extractF_eq_filter docRootName doc

/-- C3's counterexample: in `<pre><span>x</span></pre>` the run `x` sits
under a `pre` ancestor but its immediate parent is `span`, so the code
extracts it while the claim's any-depth exclusion would drop it. -/
theorem extract_text_nodes_ancestor_cex :
    extract_text_nodes
        [Node.element "pre" [] [Node.element "span" [] [Node.text "x"]]] = ["x"]
      ∧ specExtractDoc
          [Node.element "pre" [] [Node.element "span" [] [Node.text "x"]]] = []
      ∧ (["x"] == ([] : List String)) = false := by
  refine ⟨?_, ?_, by decide⟩
  · simp only [extract_text_nodes, extractF]
    decide
  · simp only [specExtractDoc, specExtractF]
    decide

/-- C10, confirmed.  `replace_texts` keeps the length and maps element `i`
to its image under the mapping when the text is a key, and to itself
unchanged when it is not. -/
theorem replace_texts_spec (ts : List String) (m : String → Option String) :
    (replace_texts ts m).length = ts.length
  ∧ ∀ i : Fin ts.length,
      (replace_texts ts m).getD i.val "" = (m (ts.get i)).getD (ts.get i) := by
  refine ⟨by simp [replace_texts], fun i => ?_⟩
  have hi : i.val < (replace_texts ts m).length := by simp [replace_texts]
  rw [List.getD_eq_getElem _ _ hi]
  simp [replace_texts]

/-- C9's counterexample: with one extracted unit and an empty replacement
sequence the unit's replacement is absent, yet the unit keeps its stale
original text instead of receiving the empty string. -/
theorem replace_in_html_short_cex :
    replace_in_html_texts ["old"] [] = ["old"] ∧ (["old"] == [""]) = false :=
  ⟨rfl, by decide⟩

/-- C9, corrected.  When the replacement sequence covers every unit, each
unit's content is overwritten in place with its replacement, an absent
(`None`) replacement becoming the empty string; but `zip` truncation means
units beyond a shorter replacement sequence are left untouched. -/
theorem replace_in_html_texts_spec (origs : List String) (repls : List (Option String))
    (h : origs.length ≤ repls.length) :
    replace_in_html_texts origs repls
      = (repls.take origs.length).map (fun r => r.getD "") := by
  induction origs generalizing repls with
  | nil => simp [replace_in_html_texts]
  | cons o os ih =>
      cases repls with
      | nil => simp at h
      | cons r rs =>
          simp only [replace_in_html_texts, List.take_succ_cons, List.map_cons]
          exact congrArg _ (ih rs (by simpa using h))

/-- C9's witness: two units, one real replacement and one `None`. -/
theorem replace_in_html_texts_spec_witness :
    replace_in_html_texts ["a", "b"] [some "x", none] = ["x", ""] :=
  (replace_in_html_texts_spec ["a", "b"] [some "x", none] (by decide)).trans (by decide)

/-- The scan of `translate_unique` keeps these invariants: every queued text
is a key of `mapping`, every queued text had a falsy cache lookup, and the
queue has no duplicates. -/
theorem buildUnique_invariant (cache : String → Option String) :
    ∀ (ts : List String) (mapping : List (String × Option String)) (unique : List String),
      (∀ t ∈ unique, t ∈ mapping.map Prod.fst) →
      (∀ t ∈ unique, pyOrNone (cache t) = none) →
      unique.Nodup →
      (buildUnique cache ts mapping unique).2.Nodup
        ∧ ∀ t ∈ (buildUnique cache ts mapping unique).2, pyOrNone (cache t) = none := by
  intro ts
  induction ts with
  | nil =>
      intro mapping unique hkeys hfalsy hnd
      simp only [buildUnique]
      refine ⟨List.nodup_reverse.mpr hnd, fun t ht => ?_⟩
      exact hfalsy t (List.mem_reverse.mp ht)
  | cons t rest ih =>
      intro mapping unique hkeys hfalsy hnd
      simp only [buildUnique]
      by_cases hmem : (mapping.map Prod.fst).contains t = true
      · rw [if_pos hmem]
        exact ih mapping unique hkeys hfalsy hnd
      · rw [if_neg hmem]
        by_cases hv : (pyOrNone (cache t)).isNone = true
        · rw [if_pos hv]
          refine ih _ (t :: unique) ?_ ?_ ?_
          · intro u hu
            simp only [List.map_append, List.map_cons, List.map_nil, List.mem_append]
            rcases List.mem_cons.mp hu with rfl | hu
            · exact Or.inr (List.mem_singleton.mpr rfl)
            · exact Or.inl (hkeys u hu)
          · intro u hu
            rcases List.mem_cons.mp hu with rfl | hu
            · exact Option.isNone_iff_eq_none.mp hv
            · exact hfalsy u hu
          · refine List.nodup_cons.mpr ⟨fun hin => ?_, hnd⟩
            exact hmem (List.elem_iff.mpr (hkeys t hin))
        · rw [if_neg hv]
          refine ih _ unique ?_ hfalsy hnd
          intro u hu
          simp only [List.map_append, List.map_cons, List.map_nil, List.mem_append]
          exact Or.inl (hkeys u hu)

/-- C4, corrected.  Within one `translate_unique` call the list sent to the
Translation Client has no duplicate source strings, and a text is sent only
when its cache lookup was falsy: the cache held nothing for it, or held the
EMPTY string (`cache.get(t) or None` discards an empty cached translation).
A cache hit with a non-empty translation therefore never reaches the
Client, but an empty cached translation is re-sent. -/
theorem sentTexts_spec (cache : String → Option String) (texts : List String) :
    (sentTexts cache texts).Nodup
  ∧ ∀ t ∈ sentTexts cache texts, pyOrNone (cache t) = none := by
  simpa [sentTexts] using
    buildUnique_invariant cache texts [] [] (by simp) (by simp) (by simp)

/-- C4's counterexample: the cache holds a translation (the empty string)
for `a`, yet `a` is still sent to the Client. -/
theorem sentTexts_cached_empty_cex :
    (fun t => if t = "a" then some "" else none : String → Option String) "a" = some ""
  ∧ sentTexts (fun t => if t = "a" then some "" else none) ["a"] = ["a"] :=
  ⟨by decide, by decide⟩

/-- Every key of the final `mapping` — the texts `translate_unique` looked
up in the cache — came from the initial mapping or the input texts. -/
theorem buildUnique_keys_sub (cache : String → Option String) :
    ∀ (ts : List String) (mapping : List (String × Option String)) (unique : List String),
      ∀ t ∈ ((buildUnique cache ts mapping unique).1).map Prod.fst,
        t ∈ mapping.map Prod.fst ∨ t ∈ ts := by
  intro ts
  induction ts with
  | nil =>
      intro mapping unique t ht
      simp only [buildUnique] at ht
      exact Or.inl ht
  | cons x rest ih =>
      intro mapping unique t ht
      simp only [buildUnique] at ht
      by_cases hmem : (mapping.map Prod.fst).contains x = true
      · rw [if_pos hmem] at ht
        rcases ih mapping unique t ht with h | h
        · exact Or.inl h
        · exact Or.inr (List.mem_cons_of_mem _ h)
      · rw [if_neg hmem] at ht
        rcases ih _ _ t ht with h | h
        · rw [List.map_append] at h
          rcases List.mem_append.mp h with h' | h'
          · exact Or.inl h'
          · have hx : t = x := by simpa using h'
            exact Or.inr (hx ▸ List.mem_cons_self _ _)
        · exact Or.inr (List.mem_cons_of_mem _ h)

/-- C6, confirmed.  The texts fed to the cache are the raw extracted texts
(text runs, attributes, meta contents, in that order) with the
pre-translation glossary already applied; every key the cache is consulted
on is such a post-pre-glossary text; and a single exact-mode rule rewrites
every occurrence of its source substring (Python `str.replace`) before the
text is used as a key. -/
theorem all_texts_pre_glossary (regexSub : String → String → String → String)
    (glossary : List (String × String × String)) (doc : List Node)
    (cache : String → Option String) :
    all_texts regexSub glossary doc
      = (rawTexts doc).map (fun s => apply_pre_glossary regexSub s glossary)
  ∧ (∀ t ∈ cacheKeys cache (all_texts regexSub glossary doc),
      t ∈ (rawTexts doc).map (fun s => apply_pre_glossary regexSub s glossary))
  ∧ ∀ s t text, apply_pre_glossary regexSub text [(s, t, "exact")] = text.replace s t := by
  refine ⟨by simp [all_texts, rawTexts], fun t ht => ?_, fun s t text => by
    simp [apply_pre_glossary]⟩
  have h := buildUnique_keys_sub cache (all_texts regexSub glossary doc) [] [] t
    (by simpa [cacheKeys] using ht)
  rcases h with h | h
  · simp at h
  · simpa [all_texts, rawTexts] using h

/-- The batch-building loop emits batches whose concatenation is the
accumulator (reversed) followed by the remaining input. -/
theorem buildBatchesAux_flatten (bsz mc : Nat) :
    ∀ (ts batch : List String) (chars : Nat),
      (buildBatchesAux bsz mc ts batch chars).flatten = batch.reverse ++ ts := by
  intro ts
  induction ts with
  | nil => intro batch chars; simp [buildBatchesAux]
  | cons t rest ih =>
      intro batch chars
      simp only [buildBatchesAux]
      split
      · split
        · simp [ih]
        · simp [ih]
      · simp [ih]

/-- The batches `translate` builds concatenate back to the input. -/
theorem buildBatches_flatten (bsz mc : Nat) (ts : List String) :
    (buildBatches bsz mc ts).flatten = ts := by
  cases ts with
  | nil => simp [buildBatches]
  | cons t rest => simp [buildBatches, buildBatchesAux_flatten]

/-- Reversal preserves a batch's character count. -/
theorem sumChars_reverse (l : List String) : sumChars l.reverse = sumChars l := by
  simp [sumChars, List.sum_reverse]

/-- Size invariants of the batch-building loop: starting from a non-empty
accumulator within both limits (chars over the limit only allowed while the
accumulator is a singleton), every emitted batch is non-empty, within the
item limit, and over the character limit only as a singleton. -/
theorem buildBatchesAux_props (bsz mc : Nat) (hbs : 1 ≤ bsz) :
    ∀ (ts batch : List String) (chars : Nat),
      batch ≠ [] → batch.length ≤ bsz → chars = sumChars batch →
      (2 ≤ batch.length → chars ≤ mc) →
      ∀ b ∈ buildBatchesAux bsz mc ts batch chars,
        b ≠ [] ∧ b.length ≤ bsz ∧ (mc < sumChars b → b.length = 1) := by
  intro ts
  induction ts with
  | nil =>
      intro batch chars hne hlen hchars hbig b hb
      simp only [buildBatchesAux, List.mem_singleton] at hb
      subst hb
      refine ⟨by simpa using hne, by simpa using hlen, fun hover => ?_⟩
      rw [sumChars_reverse, ← hchars] at hover
      have h2 : ¬ 2 ≤ batch.length := fun h => absurd (hbig h) (by omega)
      have h1 : 1 ≤ batch.length := List.length_pos.mpr hne
      simp only [List.length_reverse]
      omega
  | cons t rest ih =>
      intro batch chars hne hlen hchars hbig b hb
      simp only [buildBatchesAux] at hb
      split at hb
      · rename_i hfits
        split at hb
        · rename_i hbreak
          rcases List.mem_cons.mp hb with rfl | hb
          · refine ⟨by simpa using hne, by simpa using hlen, fun hover => ?_⟩
            rw [sumChars_reverse, ← hchars] at hover
            have h2 : ¬ 2 ≤ batch.length := fun h => absurd (hbig h) (by omega)
            have h1 : 1 ≤ batch.length := List.length_pos.mpr hne
            simp only [List.length_reverse]
            omega
          · exact ih [t] t.length (by simp) (by simpa using hbs)
              (by simp [sumChars]) (by simp) b hb
        · rename_i hnobreak
          push_neg at hnobreak
          refine ih (t :: batch) (chars + t.length) (by simp)
            (by simpa using hfits) ?_ ?_ b hb
          · simp [sumChars, hchars]; omega
          · intro h2
            have hbne : batch ≠ [] := by
              intro h
              subst h
              simp at h2
            by_contra hgt
            exact hbne (hnobreak (by omega))
      · rcases List.mem_cons.mp hb with rfl | hb
        · refine ⟨by simpa using hne, by simpa using hlen, fun hover => ?_⟩
          rw [sumChars_reverse, ← hchars] at hover
          have h2 : ¬ 2 ≤ batch.length := fun h => absurd (hbig h) (by omega)
          have h1 : 1 ≤ batch.length := List.length_pos.mpr hne
          simp only [List.length_reverse]
          omega
        · exact ih [t] t.length (by simp) (by simpa using hbs)
            (by simp [sumChars]) (by simp) b hb

/-- C5, confirmed.  For a positive item limit (with `batch_size = 0` the
Python loop never advances), the partition `translate` builds satisfies:
batches concatenate to the input in order, every batch is non-empty and
within the item-count limit, and a batch over the character limit is a
single oversized text. -/
theorem translate_batch_partition (bsz mc : Nat) (hbs : 1 ≤ bsz) (ts : List String) :
    (buildBatches bsz mc ts).flatten = ts
  ∧ ∀ b ∈ buildBatches bsz mc ts,
      b ≠ [] ∧ b.length ≤ bsz ∧ (mc < sumChars b → b.length = 1) := by
  refine ⟨buildBatches_flatten bsz mc ts, ?_⟩
  cases ts with
  | nil => simp [buildBatches]
  | cons t rest =>
      exact fun b hb => buildBatchesAux_props bsz mc hbs rest [t] t.length
        (by simp) (by simpa using hbs) (by simp [sumChars]) (by simp) b hb

/-- C5's witness: limits 2 items / 3 characters on `["aaaa", "b"]` — the
oversized first text goes out alone and the partition still concatenates to
the input. -/
theorem translate_batch_partition_witness :
    (buildBatches 2 3 ["aaaa", "b"]).flatten = ["aaaa", "b"]
  ∧ ["aaaa"].length = 1 ∧ ["b"].length ≤ 2 :=
  ⟨(translate_batch_partition 2 3 (by decide) ["aaaa", "b"]).1,
    ((translate_batch_partition 2 3 (by decide) ["aaaa", "b"]).2 ["aaaa"]
      (by decide)).2.2 (by decide),
    ((translate_batch_partition 2 3 (by decide) ["aaaa", "b"]).2 ["b"] (by decide)).2.1⟩

/-- A successful request returns the batch's translations and consumes one
request slot. -/
theorem retryLoop_ok (f : String → String) (oracle : Nat → Outcome)
    (batch : List String) (k n : Nat) (h : oracle k = Outcome.ok) :
    retryLoop f oracle batch k (n + 1) = .ok (some (batch.map f), k + 1) := by
  simp [retryLoop, h]

/-- With every request succeeding, the batches' translations are
concatenated in batch order. -/
theorem translateBatches_ok (f : String → String) (oracle : Nat → Outcome)
    (hok : ∀ k, oracle k = Outcome.ok) :
    ∀ (bl : List (List String)) (k : Nat),
      translateBatches f oracle bl k = .ok ((bl.map (List.map f)).flatten) := by
  intro bl
  induction bl with
  | nil => intro k; simp [translateBatches]
  | cons b rest ih =>
      intro k
      simp [translateBatches, retryLoop_ok f oracle b k 5 (hok k), ih]

/-- C1, confirmed.  When every request succeeds (and the item limit is
positive, as the defaults are), `translate` maps the service's translation
over the input: the result has the input's length, element `i` translating
element `i`, duplicates and oversized singletons included. -/
theorem translate_ok (bsz mc : Nat) (hbs : 1 ≤ bsz) (f : String → String)
    (oracle : Nat → Outcome) (hok : ∀ k, oracle k = Outcome.ok) (ts : List String) :
    translate bsz mc f oracle ts = .ok (ts.map f) := by
  rw [translate, translateBatches_ok f oracle hok]
  rw [← List.map_flatten, buildBatches_flatten]

/-- C1's witness: three texts with a duplicate, batch limits 2/5. -/
theorem translate_ok_witness :
    translate 2 5 (fun s => s ++ "!") (fun _ => Outcome.ok) ["a", "bb", "a"]
      = .ok (["a", "bb", "a"].map (fun s => s ++ "!")) :=
  translate_ok 2 5 (by decide) (fun s => s ++ "!") (fun _ => Outcome.ok)
    (fun _ => rfl) ["a", "bb", "a"]

/-- When every request fails with a generic transport error, the retry loop
re-raises on its last attempt. -/
theorem retryLoop_fail (f : String → String) (batch : List String) :
    ∀ (n k : Nat), retryLoop f (fun _ => Outcome.fail) batch k (n + 1) = .error () := by
  intro n
  induction n with
  | zero => intro k; rfl
  | succ m ih =>
      intro k
      have h1 : retryLoop f (fun _ => Outcome.fail) batch k (m + 1 + 1)
          = if m + 1 = 0 then .error ()
            else retryLoop f (fun _ => Outcome.fail) batch (k + 1) (m + 1) := rfl
      rw [h1, if_neg (Nat.succ_ne_zero m)]
      exact ih (k + 1)

/-- When every request is rate-limited, the retry loop exhausts its attempts
and falls through with NOTHING appended: `(none, k + n)`. -/
theorem retryLoop_rateLimit (f : String → String) (batch : List String) :
    ∀ (n k : Nat),
      retryLoop f (fun _ => Outcome.rateLimit) batch k n = .ok (none, k + n) := by
  intro n
  induction n with
  | zero => intro k; rfl
  | succ m ih =>
      intro k
      have h1 : retryLoop f (fun _ => Outcome.rateLimit) batch k (m + 1)
          = retryLoop f (fun _ => Outcome.rateLimit) batch (k + 1) m := rfl
      rw [h1, ih]
      have h2 : k + 1 + m = k + (m + 1) := by omega
      rw [h2]

/-- Under permanent rate-limiting every batch is silently skipped. -/
theorem translateBatches_rateLimit (f : String → String) :
    ∀ (bl : List (List String)) (k : Nat),
      translateBatches f (fun _ => Outcome.rateLimit) bl k = .ok [] := by
  intro bl
  induction bl with
  | nil => intro k; simp [translateBatches]
  | cons b rest ih => intro k; simp [translateBatches, retryLoop_rateLimit, ih]

/-- C2's counterexample: a single text under permanent rate-limiting.  All
six attempts are consumed, yet `translate` RETURNS NORMALLY with an empty
result — the run does not fail and the text `a` is silently omitted,
contradicting the claim that rate-limit exhaustion propagates fatally. -/
theorem translate_rateLimit_drop_cex :
    translate 80 9000 (fun s => s) (fun _ => Outcome.rateLimit) ["a"] = .ok [] := rfl

/-- C2, corrected.  Only generic transport failures propagate after the
6-attempt ceiling: with every request failing, `translate` on a non-empty
input aborts with the raised error; with every request rate-limited, the
same ceiling is exhausted but `translate` returns normally, omitting every
batch's texts from the result. -/
theorem translate_failure_modes (bsz mc : Nat) (f : String → String)
    (ts : List String) (h : ts ≠ []) :
    translate bsz mc f (fun _ => Outcome.fail) ts = .error ()
  ∧ translate bsz mc f (fun _ => Outcome.rateLimit) ts = .ok [] := by
  constructor
  · cases ts with
    | nil => exact absurd rfl h
    | cons t rest =>
        rw [translate]
        show translateBatches f (fun _ => Outcome.fail)
          (buildBatchesAux bsz mc rest [t] t.length) 0 = .error ()
        cases hbb : buildBatchesAux bsz mc rest [t] t.length with
        | nil =>
            have := buildBatchesAux_flatten bsz mc rest [t] t.length
            rw [hbb] at this
            simp at this
        | cons b bl => simp [translateBatches, retryLoop_fail]
  · rw [translate, translateBatches_rateLimit]

/-- C2's witness for the amended failure behaviour at a concrete input. -/
theorem translate_failure_modes_witness :
    translate 80 9000 (fun s => s) (fun _ => Outcome.fail) ["x"] = .error ()
  ∧ translate 80 9000 (fun s => s) (fun _ => Outcome.rateLimit) ["x"] = .ok [] :=
  translate_failure_modes 80 9000 (fun s => s) ["x"] (by decide)

/-- Folding string concatenation from any seed prepends the seed. -/
theorem foldl_append_shift :
    ∀ (l : List String) (s : String),
      l.foldl (· ++ ·) s = s ++ l.foldl (· ++ ·) "" := by
  intro l
  induction l with
  | nil => intro s; simp [String.append_empty]
  | cons a l ih =>
      intro s
      simp only [List.foldl_cons]
      rw [ih (s ++ a), ih ("" ++ a)]
      rw [show ("" ++ a : String) = a from rfl, String.append_assoc]

/-- `'../' * n` is exactly `n` ascent segments. -/
theorem repeatUp_eq_join (n : Nat) :
    repeatUp n = String.join (List.replicate n "../") := by
  induction n with
  | zero => rfl
  | succ m ih =>
      have h1 : String.join (List.replicate (m + 1) "../")
          = "../" ++ String.join (List.replicate m "../") := by
        show (List.replicate (m + 1) "../").foldl (· ++ ·) ""
            = "../" ++ (List.replicate m "../").foldl (· ++ ·) ""
        rw [List.replicate_succ, List.foldl_cons, foldl_append_shift]
        rfl
      rw [repeatUp, ih, h1]

/-- C7, confirmed.  The alternate-language link injected for a document at
relative path `rel` carries: in the translated-output role, exactly
`depth + 1` ascent segments followed by `rel`; in the source-annotation
role, exactly `depth` ascent segments, the `uz/` locale subdirectory, then
`rel` — where `depth` counts the path separators of `rel`.  Depth 2 yields
`../../../`, depth 0 yields a single `../` (translated role) or none
(source role). -/
theorem locale_link_paths (rel : String) (d : SDoc) :
    (set_lang_and_hreflang rel true d).head = d.head ++ [altLinkNode "ru" (hrefUz rel)]
  ∧ (set_lang_and_hreflang rel false d).head = d.head ++ [altLinkNode "uz" (hrefRu rel)]
  ∧ hrefUz rel = String.join (List.replicate (countSlashes rel + 1) "../") ++ rel
  ∧ hrefRu rel = String.join (List.replicate (countSlashes rel) "../") ++ "uz/" ++ rel
  ∧ hrefUz "a/b/c.html" = "../../../a/b/c.html"
  ∧ hrefUz "index.html" = "../index.html"
  ∧ hrefRu "a/b/c.html" = "../../uz/a/b/c.html"
  ∧ hrefRu "index.html" = "uz/index.html" := by
  refine ⟨rfl, rfl, by rw [hrefUz, repeatUp_eq_join], ?_, by decide, by decide,
    by decide, by decide⟩
  rw [hrefRu, ← repeatUp_eq_join]
  rcases Nat.eq_zero_or_pos (countSlashes rel) with h | h
  · rw [h, if_neg (by omega)]
    rfl
  · rw [if_pos h]

/-- Counting matches distributes over forest concatenation. -/
theorem countNodes_append (p : Node → Bool) :
    ∀ (l l' : List Node), countNodes p (l ++ l') = countNodes p l + countNodes p l' := by
  intro l
  induction l with
  | nil => intro l'; simp [countNodes]
  | cons n rest ih =>
      intro l'
      cases n with
      | element nm a ch => simp [countNodes, ih]; omega
      | text s => simp [countNodes, ih]; omega
      | comment s => simp [countNodes, ih]; omega

/-- `find` on a forest with no match removes nothing. -/
theorem removeFirst_count_zero (p : Node → Bool) :
    ∀ l : List Node, countNodes p l = 0 → removeFirst p l = l := by
  intro l
  induction l with
  | nil => intro _; simp [removeFirst]
  | cons n rest ih =>
      intro h
      cases n with
      | element nm a ch =>
          simp only [countNodes] at h
          have hp : ¬ p (Node.element nm a ch) = true := by
            intro hp
            rw [hp] at h
            simp at h
          have hch : countNodes p ch = 0 := by omega
          have hrest : countNodes p rest = 0 := by omega
          simp only [removeFirst, if_neg hp]
          rw [if_neg (by omega), ih hrest]
      | text s =>
          simp only [countNodes] at h
          have hp : ¬ p (Node.text s) = true := by
            intro hp
            rw [hp] at h
            simp at h
          simp only [removeFirst, if_neg hp]
          rw [ih (by omega)]
      | comment s =>
          simp only [countNodes] at h
          have hp : ¬ p (Node.comment s) = true := by
            intro hp
            rw [hp] at h
            simp at h
          simp only [removeFirst, if_neg hp]
          rw [ih (by omega)]

/-- `find` + `decompose` on a match-free forest followed by one matching
node removes exactly that node. -/
theorem removeFirst_append_last (p : Node → Bool) (n : Node) (hp : p n = true) :
    ∀ l : List Node, countNodes p l = 0 → removeFirst p (l ++ [n]) = l := by
  intro l
  induction l with
  | nil => intro _; cases n <;> simp [removeFirst, hp]
  | cons m rest ih =>
      intro h
      cases m with
      | element nm a ch =>
          simp only [countNodes] at h
          have hm : ¬ p (Node.element nm a ch) = true := by
            intro hm
            rw [hm] at h
            simp at h
          have hch : countNodes p ch = 0 := by omega
          simp only [List.cons_append, removeFirst, if_neg hm]
          rw [if_neg (by omega), ih (by omega)]
      | text s =>
          simp only [countNodes] at h
          have hm : ¬ p (Node.text s) = true := by
            intro hm
            rw [hm] at h
            simp at h
          simp only [List.cons_append, removeFirst, if_neg hm]
          rw [ih (by omega)]
      | comment s =>
          simp only [countNodes] at h
          have hm : ¬ p (Node.comment s) = true := by
            intro hm
            rw [hm] at h
            simp at h
          simp only [List.cons_append, removeFirst, if_neg hm]
          rw [ih (by omega)]

/-- The injected alternate link matches its own finder. -/
theorem isAltLink_altLinkNode (hl href : String) :
    isAltLink hl (altLinkNode hl href) = true := by
  simp [isAltLink, altLinkNode, List.lookup]

/-- The injected link subtree contains exactly one match. -/
theorem countNodes_altLinkNode (hl href : String) :
    countNodes (isAltLink hl) [altLinkNode hl href] = 1 := by
  have h := isAltLink_altLinkNode hl href
  rw [altLinkNode] at h ⊢
  simp [countNodes, h]

/-- The injected switcher div matches its own finder (its style attribute
contains both `position:fixed` and `bottom:12px`). -/
theorem isSwitcherDiv_switcherNode (hl href label : String) :
    isSwitcherDiv (switcherNode hl href label) = true := by
  simp only [isSwitcherDiv, switcherNode, List.lookup]
  decide

/-- The injected switcher subtree contains exactly one match (the inner
anchor is not a div). -/
theorem countNodes_switcherNode (hl href label : String) :
    countNodes isSwitcherDiv [switcherNode hl href label] = 1 := by
  simp only [switcherNode] at *
  simp only [countNodes]
  rw [show isSwitcherDiv (Node.element "div" [("style", switcherStyle)]
    [Node.element "a" [("href", href), ("hreflang", hl)] [Node.text label]]) = true from
      isSwitcherDiv_switcherNode hl href label]
  simp [countNodes, isSwitcherDiv]

/-- `find` + `decompose` removes the head of the forest when it matches. -/
theorem removeFirst_cons_match (p : Node → Bool) (n : Node) (rest : List Node)
    (hp : p n = true) : removeFirst p (n :: rest) = rest := by
  cases n <;> simp [removeFirst, hp]

/-- The head after the source-annotation pass: previous `uz` link removed,
fresh one appended. -/
theorem annotateRu_head (rel : String) (d : SDoc) :
    (annotateRu rel d).head
      = removeFirst (isAltLink "uz") d.head ++ [altLinkNode "uz" (hrefRu rel)] := rfl

/-- The body after the source-annotation pass, when a body element exists:
previous switcher removed, fresh one appended.  (Without a body element
both the removal and the injection are guarded no-ops and `body` stays
`none`.) -/
theorem annotateRu_body_some (rel : String) (d : SDoc) (b : List Node)
    (hb : d.body = some b) :
    (annotateRu rel d).body
      = some (removeFirst isSwitcherDiv b
          ++ [switcherNode "uz" (hrefRu rel) "O\x27zbekcha"]) := by
  show (d.body.map (removeFirst isSwitcherDiv)).map
      (fun x => x ++ [switcherNode "uz" (hrefRu rel) "O\x27zbekcha"]) = _
  rw [hb]
  rfl

/-- The body after the translated-output pass, when a body element exists:
nothing removed, the switcher appended. -/
theorem annotateUz_body_some (rel : String) (d : SDoc) (b : List Node)
    (hb : d.body = some b) :
    (annotateUz rel d).body
      = some (b ++ [switcherNode "ru" (hrefUz rel) "Русский"]) := by
  show d.body.map (fun x => x ++ [switcherNode "ru" (hrefUz rel) "Русский"]) = _
  rw [hb]
  rfl

/-- C8's counterexample: in the translated-output role nothing is removed
before re-injection, so two runs leave TWO alternate-language links and TWO
switch controls; and in the source-annotation role only the FIRST existing
control is removed, so a document that already carries two controls still
ends with two after re-annotation — both contradict "exactly one". -/
theorem annotate_twice_cex :
    countAltLinks "ru"
        (annotateUz "p.html" (annotateUz "p.html" ⟨none, [], some []⟩)) = 2
  ∧ countSwitchers
        (annotateUz "p.html" (annotateUz "p.html" ⟨none, [], some []⟩)) = 2
  ∧ countSwitchers
        (annotateRu "p.html"
          (annotateRu "p.html"
            ⟨none, [], some [switcherNode "uz" "u" "L", switcherNode "uz" "u" "L"]⟩)) = 2 := by
  refine ⟨?_, ?_, ?_⟩
  · show countNodes (isAltLink "ru")
      ([] ++ [altLinkNode "ru" (hrefUz "p.html")] ++ [altLinkNode "ru" (hrefUz "p.html")]) = 2
    rw [countNodes_append, countNodes_append, countNodes_altLinkNode]
    simp [countNodes]
  · show countNodes isSwitcherDiv
      ([] ++ [switcherNode "ru" (hrefUz "p.html") "Русский"]
        ++ [switcherNode "ru" (hrefUz "p.html") "Русский"]) = 2
    rw [countNodes_append, countNodes_append, countNodes_switcherNode]
    simp [countNodes_switcherNode, countNodes]
  · have hS0 := isSwitcherDiv_switcherNode "uz" "u" "L"
    have e1 := annotateRu_body_some "p.html"
      ⟨none, [], some [switcherNode "uz" "u" "L", switcherNode "uz" "u" "L"]⟩
      [switcherNode "uz" "u" "L", switcherNode "uz" "u" "L"] rfl
    rw [removeFirst_cons_match _ _ _ hS0] at e1
    have e2 := annotateRu_body_some "p.html" _ _ e1
    rw [List.singleton_append, removeFirst_cons_match _ _ _ hS0] at e2
    simp only [countSwitchers]
    rw [e2, Option.getD_some, countNodes_append, countNodes_switcherNode]

/-- C8, corrected.  In the source-annotation role, on a document that HAS a
body element and no pre-existing matching `uz` alternate link or switch
control, running the annotator twice yields exactly one of each — the
previously injected link and control are found and removed before
re-injection.  In the translated-output role nothing is removed, and each
run adds one more link and one more control.  On a document whose `html`
element lacks a body, the injection's guard (lines 271-273) returns without
doing anything, so no switch control is ever present in either role. -/
theorem annotateRu_idempotent (rel : String) (d : SDoc) (b : List Node)
    (hb : d.body = some b)
    (h1 : countAltLinks "uz" d = 0) (h2 : countSwitchers d = 0) :
    countAltLinks "uz" (annotateRu rel (annotateRu rel d)) = 1
  ∧ countSwitchers (annotateRu rel (annotateRu rel d)) = 1
  ∧ countAltLinks "ru" (annotateUz rel (annotateUz rel d))
      = countAltLinks "ru" d + 2
  ∧ countSwitchers (annotateUz rel (annotateUz rel d)) = 2
  ∧ countSwitchers (annotateRu rel (annotateRu rel { d with body := none })) = 0
  ∧ countSwitchers (annotateUz rel (annotateUz rel { d with body := none })) = 0 := by
  have hL : isAltLink "uz" (altLinkNode "uz" (hrefRu rel)) = true :=
    isAltLink_altLinkNode "uz" (hrefRu rel)
  have hS : isSwitcherDiv (switcherNode "uz" (hrefRu rel) "O\x27zbekcha") = true :=
    isSwitcherDiv_switcherNode _ _ _
  have h1' : countNodes (isAltLink "uz") d.head = 0 := h1
  have h2' : countNodes isSwitcherDiv b = 0 := by
    simpa [countSwitchers, hb] using h2
  refine ⟨?_, ?_, ?_, ?_, ?_, ?_⟩
  · rw [countAltLinks, annotateRu_head, annotateRu_head,
      removeFirst_count_zero _ _ h1',
      removeFirst_append_last _ _ hL _ h1',
      countNodes_append, countNodes_altLinkNode]
    omega
  · have e1 := annotateRu_body_some rel d b hb
    rw [removeFirst_count_zero _ _ h2'] at e1
    have e2 := annotateRu_body_some rel _ _ e1
    rw [removeFirst_append_last _ _ hS _ h2'] at e2
    simp only [countSwitchers]
    rw [e2, Option.getD_some, countNodes_append, countNodes_switcherNode]
    omega
  · show countNodes (isAltLink "ru")
      (d.head ++ [altLinkNode "ru" (hrefUz rel)] ++ [altLinkNode "ru" (hrefUz rel)])
        = countNodes (isAltLink "ru") d.head + 2
    rw [countNodes_append, countNodes_append, countNodes_altLinkNode]
  · have e1 := annotateUz_body_some rel d b hb
    have e2 := annotateUz_body_some rel _ _ e1
    simp only [countSwitchers]
    rw [e2, Option.getD_some, countNodes_append, countNodes_append,
      countNodes_switcherNode]
    omega
  · show countNodes isSwitcherDiv ((none : Option (List Node)).getD []) = 0
    simp [countNodes]
  · show countNodes isSwitcherDiv ((none : Option (List Node)).getD []) = 0
    simp [countNodes]

/-- C8's witness: the amended idempotence at a concrete document with an
empty body, and the no-body no-op at the same document without one. -/
theorem annotateRu_idempotent_witness :
    countAltLinks "uz" (annotateRu "a.html" (annotateRu "a.html" ⟨none, [], some []⟩)) = 1
  ∧ countSwitchers (annotateRu "a.html" (annotateRu "a.html" ⟨none, [], some []⟩)) = 1
  ∧ countAltLinks "ru" (annotateUz "a.html" (annotateUz "a.html" ⟨none, [], some []⟩))
      = countAltLinks "ru" (⟨none, [], some []⟩ : SDoc) + 2
  ∧ countSwitchers (annotateUz "a.html" (annotateUz "a.html" ⟨none, [], some []⟩)) = 2
  ∧ countSwitchers (annotateRu "a.html" (annotateRu "a.html" ⟨none, [], none⟩)) = 0
  ∧ countSwitchers (annotateUz "a.html" (annotateUz "a.html" ⟨none, [], none⟩)) = 0 :=
  annotateRu_idempotent "a.html" ⟨none, [], some []⟩ [] rfl
    (by simp [countAltLinks, countNodes]) (by simp [countSwitchers, countNodes])

end TrUz
